import Mathlib

/-!
Shallow embedding of the bookcode wave-code core:
code generation and validation (src/lib/services/codeGenerator.ts),
themed rendering geometry and batch behaviour (imageGenerator),
and theme merge/validation (theme config module).
Numeric values are modelled over the rationals; JavaScript
Math.min / Math.max / Math.round / Math.floor become their exact
rational counterparts.
-/

/-- The ASCII fragment of String.prototype.toUpperCase on one character.
This agrees with the builtin exactly on code points below 0x80 — the
domain of the claims about valid codes — but the full builtin is a
Unicode mapping that can expand a character (sharp s becomes SS) or map
a non-ASCII character into A-Z (long s becomes S); where a claim ranges
over arbitrary strings, the uppercase step is instead a parameter of the
model (codeToNumericValuesU below). -/
def toUpperChar (c : Char) : Char :=
  if 'a' ≤ c ∧ c ≤ 'z' then Char.ofNat (c.toNat - 32) else c

/-- code.toUpperCase(), restricted to its ASCII fragment. -/
def toUpperStr (s : String) : String :=
  ⟨s.data.map toUpperChar⟩

/-- Membership of a character in the 36-symbol class [A-Z0-9]. -/
def isUpperAlnum (c : Char) : Bool :=
  decide (('A' ≤ c ∧ c ≤ 'Z') ∨ ('0' ≤ c ∧ c ≤ '9'))

/-- isValidCodeFormat: length 6 and, after uppercasing, every character
matches the class of the regex [A-Z0-9]{6}. -/
def isValidCodeFormat (s : String) : Bool :=
  s.length == 6 && (toUpperStr s).data.all isUpperAlnum

/-- The per-character ordinal used by codeToNumericValues:
A..Z become 0..25, 0..9 become 26..35, anything else becomes 0. -/
def charToVal (c : Char) : ℕ :=
  if 'A' ≤ c ∧ c ≤ 'Z' then c.toNat - 65
  else if '0' ≤ c ∧ c ≤ '9' then c.toNat - 48 + 26
  else 0

/-- codeToNumericValues: uppercase the code, then map each character to
its ordinal. -/
def codeToNumericValues (s : String) : List ℕ :=
  (toUpperStr s).data.map charToVal

/-- Pre-clamp value of the first bar of a character group. -/
def preBar1 (n : ℚ) : ℚ := n * 0.8 + 0.2

/-- Pre-clamp value of the second bar of a character group. -/
def preBar2 (n : ℚ) : ℚ := n * 1.1 + 0.1

/-- Pre-clamp value of the third bar of a character group. -/
def preBar3 (n : ℚ) : ℚ := n * 0.95 + 0.15

/-- Pre-clamp value of the fourth bar of a character group. -/
def preBar4 (n : ℚ) : ℚ := n * 0.85 + 0.2

/-- The 4 bars pushed for one character value.  The source also computes
a seed ((idx + 1) * 7) per character, but never uses it. -/
def barGroup (v : ℕ) : List ℚ :=
  let normalizedVal : ℚ := (v : ℚ) / 35
  [min 1 (preBar1 normalizedVal),
   min 1 (preBar2 normalizedVal),
   min 1 (preBar3 normalizedVal),
   min 1 (preBar4 normalizedVal)]

/-- codeToWavePattern: forEach over the character values, pushing 4 bars
per character onto the accumulator. -/
def codeToWavePattern (s : String) : List ℚ :=
  (codeToNumericValues s).foldl (fun bars v => bars ++ barGroup v) []

/-! ### Basic lemmas about the embedding -/

theorem wavePattern_foldl_eq (l : List ℕ) (acc : List ℚ) :
    l.foldl (fun bars v => bars ++ barGroup v) acc = acc ++ (l.map barGroup).flatten := by
  induction l generalizing acc with
  | nil => simp
  | cons v t ih => simp [List.foldl_cons, ih, List.append_assoc]

theorem codeToWavePattern_eq_flatten (s : String) :
    codeToWavePattern s = ((codeToNumericValues s).map barGroup).flatten := by
  simp [codeToWavePattern, wavePattern_foldl_eq]

theorem char_le_iff_toNat {a b : Char} : a ≤ b ↔ a.toNat ≤ b.toNat := by
  constructor
  · intro h
    exact h
  · intro h
    exact h

theorem char_a_toNat : ('a' : Char).toNat = 97 := rfl

theorem char_Z_toNat : ('Z' : Char).toNat = 90 := rfl

theorem char_nine_toNat : ('9' : Char).toNat = 57 := rfl

theorem toUpperChar_of_upperAlnum {c : Char} (h : isUpperAlnum c = true) :
    toUpperChar c = c := by
  have h' := of_decide_eq_true h
  unfold toUpperChar
  rw [if_neg]
  rintro ⟨ha, -⟩
  have ha' : ('a' : Char).toNat ≤ c.toNat := char_le_iff_toNat.mp ha
  rw [char_a_toNat] at ha'
  rcases h' with ⟨-, h2⟩ | ⟨-, h2⟩
  · have h2' : c.toNat ≤ ('Z' : Char).toNat := char_le_iff_toNat.mp h2
    rw [char_Z_toNat] at h2'
    omega
  · have h2' : c.toNat ≤ ('9' : Char).toNat := char_le_iff_toNat.mp h2
    rw [char_nine_toNat] at h2'
    omega

theorem charToVal_le_35 (c : Char) : charToVal c ≤ 35 := by
  unfold charToVal
  split
  · rename_i h
    have h2 : c.toNat ≤ ('Z' : Char).toNat := char_le_iff_toNat.mp h.2
    rw [char_Z_toNat] at h2
    omega
  · split
    · rename_i h
      have h2 : c.toNat ≤ ('9' : Char).toNat := char_le_iff_toNat.mp h.2
      rw [char_nine_toNat] at h2
      omega
    · omega

theorem barGroup_length (v : ℕ) : (barGroup v).length = 4 := rfl

theorem barGroup_eq (v : ℕ) :
    barGroup v = [min 1 (preBar1 ((v : ℚ) / 35)), min 1 (preBar2 ((v : ℚ) / 35)),
      min 1 (preBar3 ((v : ℚ) / 35)), min 1 (preBar4 ((v : ℚ) / 35))] := rfl

theorem barGroup_mem_bounds (v : ℕ) : ∀ q ∈ barGroup v, 0 ≤ q ∧ q ≤ 1 := by
  intro q hq
  have hv : (0 : ℚ) ≤ (v : ℚ) / 35 := by positivity
  have hb : ∀ a b : ℚ, 0 ≤ a → 0 < b → 0 ≤ min 1 ((v : ℚ) / 35 * a + b) ∧
      min 1 ((v : ℚ) / 35 * a + b) ≤ 1 := by
    intro a b ha hb
    constructor
    · apply le_min
      · norm_num
      · positivity
    · exact min_le_left _ _
  rw [barGroup_eq] at hq
  simp only [List.mem_cons, List.not_mem_nil, or_false] at hq
  rcases hq with rfl | rfl | rfl | rfl
  · exact hb 0.8 0.2 (by norm_num) (by norm_num)
  · exact hb 1.1 0.1 (by norm_num) (by norm_num)
  · exact hb 0.95 0.15 (by norm_num) (by norm_num)
  · exact hb 0.85 0.2 (by norm_num) (by norm_num)

theorem codeToNumericValues_length (s : String) :
    (codeToNumericValues s).length = s.length := by
  show ((s.data.map toUpperChar).map charToVal).length = s.length
  simp only [List.length_map]
  rfl

theorem sum_length_barGroups (l : List ℕ) :
    ((l.map barGroup).map List.length).sum = 4 * l.length := by
  induction l with
  | nil => simp
  | cons v t ih =>
    simp only [List.map_cons, List.sum_cons, ih, barGroup_length, List.length_cons]
    ring

theorem codeToWavePattern_length (s : String) :
    (codeToWavePattern s).length = 4 * s.length := by
  rw [codeToWavePattern_eq_flatten, List.length_flatten, sum_length_barGroups,
    codeToNumericValues_length]

/-- C1: for a valid 6-character (uppercase alphanumeric) code, the wave
pattern processes the 6 characters in order and emits, for each character
of ordinal v with normalized = v/35, exactly the 4 bars
min 1 (normalized*0.8+0.2), min 1 (normalized*1.1+0.1),
min 1 (normalized*0.95+0.15), min 1 (normalized*0.85+0.2);
the result is the concatenation of the 6 groups of 4. -/
theorem c1_wavePattern_per_char (s : String)
    (hlen : s.data.length = 6)
    (hc : ∀ c ∈ s.data, isUpperAlnum c = true) :
    codeToWavePattern s =
      (s.data.map (fun c =>
        let normalized : ℚ := (charToVal c : ℚ) / 35
        [min 1 (normalized * 0.8 + 0.2),
         min 1 (normalized * 1.1 + 0.1),
         min 1 (normalized * 0.95 + 0.15),
         min 1 (normalized * 0.85 + 0.2)])).flatten ∧
    (s.data.map (fun c =>
        let normalized : ℚ := (charToVal c : ℚ) / 35
        [min 1 (normalized * 0.8 + 0.2),
         min 1 (normalized * 1.1 + 0.1),
         min 1 (normalized * 0.95 + 0.15),
         min 1 (normalized * 0.85 + 0.2)])).length = 6 := by
  have hup : s.data.map toUpperChar = s.data :=
    (List.map_congr_left fun c hcs => toUpperChar_of_upperAlnum (hc c hcs)).trans
      (List.map_id _)
  have hdata : codeToNumericValues s = s.data.map charToVal := by
    show (s.data.map toUpperChar).map charToVal = s.data.map charToVal
    rw [hup]
  constructor
  · rw [codeToWavePattern_eq_flatten, hdata, List.map_map]
    congr 1
  · simp [hlen]

/-- C1 witness at the concrete code ABC123. -/
theorem c1_wavePattern_per_char_witness :
    ("ABC123" : String).data.length = 6 ∧
    (∀ c ∈ ("ABC123" : String).data, isUpperAlnum c = true) ∧
    codeToWavePattern "ABC123" =
      (("ABC123" : String).data.map (fun c =>
        let normalized : ℚ := (charToVal c : ℚ) / 35
        [min 1 (normalized * 0.8 + 0.2),
         min 1 (normalized * 1.1 + 0.1),
         min 1 (normalized * 0.95 + 0.15),
         min 1 (normalized * 0.85 + 0.2)])).flatten :=
  ⟨by decide, by decide,
    (c1_wavePattern_per_char "ABC123" (by decide) (by decide)).1⟩

/-- C2: for every valid code, the wave pattern has length exactly 24 and
every element lies in the closed interval [0, 1]. -/
theorem c2_wavePattern_length_bounds (s : String)
    (h : isValidCodeFormat s = true) :
    (codeToWavePattern s).length = 24 ∧
    ∀ q ∈ codeToWavePattern s, 0 ≤ q ∧ q ≤ 1 := by
  constructor
  · have hlen : s.length = 6 := by
      have h1 := (Bool.and_eq_true _ _).mp h |>.1
      simpa using h1
    rw [codeToWavePattern_length, hlen]
  · intro q hq
    rw [codeToWavePattern_eq_flatten] at hq
    rcases List.mem_flatten.mp hq with ⟨g, hg, hqg⟩
    rcases List.mem_map.mp hg with ⟨v, -, rfl⟩
    exact barGroup_mem_bounds v q hqg

/-- C2 witness at the concrete code ABC123. -/
theorem c2_wavePattern_length_bounds_witness :
    isValidCodeFormat "ABC123" = true ∧
    (codeToWavePattern "ABC123").length = 24 :=
  ⟨by decide, (c2_wavePattern_length_bounds "ABC123" (by decide)).1⟩

/-! ### Injectivity infrastructure (claims C7, C9, C10) -/

theorem char_A_toNat : ('A' : Char).toNat = 65 := rfl

theorem char_zero_toNat : ('0' : Char).toNat = 48 := rfl

theorem char_toNat_inj {a b : Char} (h : a.toNat = b.toNat) : a = b := by
  have h2 := congrArg Char.ofNat h
  rwa [Char.ofNat_toNat, Char.ofNat_toNat] at h2

theorem charToVal_inj_on_valid {c1 c2 : Char}
    (h1 : isUpperAlnum c1 = true) (h2 : isUpperAlnum c2 = true)
    (h : charToVal c1 = charToVal c2) : c1 = c2 := by
  have h1' := of_decide_eq_true h1
  have h2' := of_decide_eq_true h2
  apply char_toNat_inj
  have b1 := char_le_iff_toNat (a := 'A') (b := c1)
  have b2 := char_le_iff_toNat (a := c1) (b := 'Z')
  have b3 := char_le_iff_toNat (a := '0') (b := c1)
  have b4 := char_le_iff_toNat (a := c1) (b := '9')
  have b5 := char_le_iff_toNat (a := 'A') (b := c2)
  have b6 := char_le_iff_toNat (a := c2) (b := 'Z')
  have b7 := char_le_iff_toNat (a := '0') (b := c2)
  have b8 := char_le_iff_toNat (a := c2) (b := '9')
  rw [char_A_toNat] at b1 b5
  rw [char_Z_toNat] at b2 b6
  rw [char_zero_toNat] at b3 b7
  rw [char_nine_toNat] at b4 b8
  unfold charToVal at h
  rcases h1' with hc1 | hc1 <;> rcases h2' with hc2 | hc2
  · rw [if_pos hc1, if_pos hc2] at h
    have := b1.mp hc1.1
    have := b5.mp hc2.1
    omega
  · rw [if_pos hc1] at h
    rw [if_neg ?_, if_pos hc2] at h
    · have := b2.mp hc1.2
      have := b7.mp hc2.1
      omega
    · rintro ⟨ha, -⟩
      have := b5.mp ha
      have := b8.mp hc2.2
      omega
  · rw [if_neg ?_, if_pos hc1] at h
    · rw [if_pos hc2] at h
      have := b6.mp hc2.2
      have := b3.mp hc1.1
      omega
    · rintro ⟨ha, -⟩
      have := b1.mp ha
      have := b4.mp hc1.2
      omega
  · rw [if_neg ?_, if_pos hc1, if_neg ?_, if_pos hc2] at h
    · have := b3.mp hc1.1
      have := b7.mp hc2.1
      omega
    · rintro ⟨ha, -⟩
      have := b5.mp ha
      have := b8.mp hc2.2
      omega
    · rintro ⟨ha, -⟩
      have := b1.mp ha
      have := b4.mp hc1.2
      omega

theorem div35_le_one {v : ℕ} (h : v ≤ 35) : ((v : ℚ) / 35) ≤ 1 := by
  rw [div_le_one (by norm_num)]
  exact_mod_cast h

theorem preBar1_le_one {v : ℕ} (h : v ≤ 35) : preBar1 ((v : ℚ) / 35) ≤ 1 := by
  have h1 := div35_le_one h
  unfold preBar1
  nlinarith

theorem bar1_inj {v1 v2 : ℕ} (h1 : v1 ≤ 35) (h2 : v2 ≤ 35)
    (h : min 1 (preBar1 ((v1 : ℚ) / 35)) = min 1 (preBar1 ((v2 : ℚ) / 35))) :
    v1 = v2 := by
  rw [min_eq_right (preBar1_le_one h1), min_eq_right (preBar1_le_one h2)] at h
  unfold preBar1 at h
  have hq : (v1 : ℚ) = (v2 : ℚ) := by
    field_simp at h
    rcases h with h | h
    · exact_mod_cast h
    · norm_num at h
  exact_mod_cast hq

theorem barGroups_flatten_inj :
    ∀ (l1 l2 : List ℕ), (∀ v ∈ l1, v ≤ 35) → (∀ v ∈ l2, v ≤ 35) →
      l1.length = l2.length →
      (l1.map barGroup).flatten = (l2.map barGroup).flatten → l1 = l2 := by
  intro l1
  induction l1 with
  | nil =>
    intro l2 _ _ hlen _
    cases l2 with
    | nil => rfl
    | cons v t => cases hlen
  | cons v1 t1 ih =>
    intro l2 hb1 hb2 hlen hflat
    cases l2 with
    | nil => cases hlen
    | cons v2 t2 =>
      rw [List.map_cons, List.map_cons, List.flatten_cons, List.flatten_cons] at hflat
      have hgl : (barGroup v1).length = (barGroup v2).length := by
        rw [barGroup_length, barGroup_length]
      obtain ⟨hg, ht⟩ := List.append_inj hflat hgl
      have hv1 : v1 ≤ 35 := hb1 v1 (List.mem_cons_self v1 t1)
      have hv2 : v2 ≤ 35 := hb2 v2 (List.mem_cons_self v2 t2)
      have hv : v1 = v2 := by
        rw [barGroup_eq, barGroup_eq] at hg
        injection hg with hhead _
        exact bar1_inj hv1 hv2 hhead
      have hts : t1 = t2 := by
        apply ih t2 (fun v hv => hb1 v (List.mem_cons_of_mem _ hv))
          (fun v hv => hb2 v (List.mem_cons_of_mem _ hv))
          (by simpa using hlen) ht
      rw [hv, hts]

/-- A code matching the regex [A-Z0-9]{6} directly (already uppercase). -/
def isUpperCode (s : String) : Bool :=
  s.length == 6 && s.data.all isUpperAlnum

theorem map_charToVal_inj :
    ∀ l1 l2 : List Char, (∀ c ∈ l1, isUpperAlnum c = true) →
      (∀ c ∈ l2, isUpperAlnum c = true) →
      l1.map charToVal = l2.map charToVal → l1 = l2 := by
  intro l1
  induction l1 with
  | nil =>
    intro l2 _ _ h
    cases l2 with
    | nil => rfl
    | cons c t => cases h
  | cons c1 t1 ih =>
    intro l2 hv1 hv2 h
    cases l2 with
    | nil => cases h
    | cons c2 t2 =>
      rw [List.map_cons, List.map_cons] at h
      injection h with hhead htail
      have hc : c1 = c2 :=
        charToVal_inj_on_valid (hv1 c1 (List.mem_cons_self c1 t1))
          (hv2 c2 (List.mem_cons_self c2 t2)) hhead
      have ht : t1 = t2 :=
        ih t2 (fun c hc => hv1 c (List.mem_cons_of_mem _ hc))
          (fun c hc => hv2 c (List.mem_cons_of_mem _ hc)) htail
      rw [hc, ht]

theorem string_data_inj {s1 s2 : String} (h : s1.data = s2.data) : s1 = s2 := by
  cases s1 with
  | mk d1 =>
    cases s2 with
    | mk d2 => exact congrArg String.mk h

/-- C9: codeToWavePattern is injective on codes matching [A-Z0-9]{6}: the
first bar of each character group never reaches its clamp and is strictly
increasing in the ordinal, so equal patterns force equal codes — always,
not merely with high probability. -/
theorem c9_wavePattern_injective (s1 s2 : String)
    (h1 : isUpperCode s1 = true) (h2 : isUpperCode s2 = true)
    (heq : codeToWavePattern s1 = codeToWavePattern s2) : s1 = s2 := by
  have hall1 : ∀ c ∈ s1.data, isUpperAlnum c = true := by
    have := (Bool.and_eq_true _ _).mp h1 |>.2
    simpa [List.all_eq_true] using this
  have hall2 : ∀ c ∈ s2.data, isUpperAlnum c = true := by
    have := (Bool.and_eq_true _ _).mp h2 |>.2
    simpa [List.all_eq_true] using this
  have hlen1 : s1.length = 6 := by
    have := (Bool.and_eq_true _ _).mp h1 |>.1
    simpa using this
  have hlen2 : s2.length = 6 := by
    have := (Bool.and_eq_true _ _).mp h2 |>.1
    simpa using this
  have hup1 : s1.data.map toUpperChar = s1.data :=
    (List.map_congr_left fun c hcs => toUpperChar_of_upperAlnum (hall1 c hcs)).trans
      (List.map_id _)
  have hup2 : s2.data.map toUpperChar = s2.data :=
    (List.map_congr_left fun c hcs => toUpperChar_of_upperAlnum (hall2 c hcs)).trans
      (List.map_id _)
  have hdata1 : codeToNumericValues s1 = s1.data.map charToVal := by
    show (s1.data.map toUpperChar).map charToVal = s1.data.map charToVal
    rw [hup1]
  have hdata2 : codeToNumericValues s2 = s2.data.map charToVal := by
    show (s2.data.map toUpperChar).map charToVal = s2.data.map charToVal
    rw [hup2]
  rw [codeToWavePattern_eq_flatten, codeToWavePattern_eq_flatten,
    hdata1, hdata2] at heq
  have hvals : s1.data.map charToVal = s2.data.map charToVal := by
    apply barGroups_flatten_inj _ _ ?_ ?_ ?_ heq
    · intro v hv
      rcases List.mem_map.mp hv with ⟨c, -, rfl⟩
      exact charToVal_le_35 c
    · intro v hv
      rcases List.mem_map.mp hv with ⟨c, -, rfl⟩
      exact charToVal_le_35 c
    · have e1 : s1.data.length = 6 := hlen1
      have e2 : s2.data.length = 6 := hlen2
      simp [e1, e2]
  exact string_data_inj (map_charToVal_inj _ _ hall1 hall2 hvals)

/-- C9 witness: the hypotheses are satisfiable at concrete codes. -/
theorem c9_wavePattern_injective_witness :
    isUpperCode "ABC123" = true ∧ ("ABC123" : String) = "ABC123" :=
  ⟨by decide, c9_wavePattern_injective "ABC123" "ABC123" (by decide) (by decide) rfl⟩

/-! ### Totality over arbitrary strings (claim C10)

Over arbitrary input strings the uppercase step is the full Unicode
String.prototype.toUpperCase, which is not per-character length
preserving.  The embedding therefore abstracts the builtin as a
parameter upper (as pow24 abstracts Math.pow for C5): the statements
below hold for every upper, in particular for the real builtin.  For
the counterexample, jsToUpper spells out the builtin on the characters
it is applied to (ASCII, plus the sharp s expanding to SS and the long
s mapping to S, both documented Unicode uppercase mappings). -/

/-- codeToNumericValues with the uppercase builtin as a parameter. -/
def codeToNumericValuesU (upper : String → String) (s : String) : List ℕ :=
  (upper s).data.map charToVal

/-- codeToWavePattern with the uppercase builtin as a parameter. -/
def codeToWavePatternU (upper : String → String) (s : String) : List ℚ :=
  (codeToNumericValuesU upper s).foldl (fun bars v => bars ++ barGroup v) []

/-- On the ASCII fragment the parametric functions coincide with the
ASCII embedding used for valid codes. -/
theorem codeToWavePatternU_toUpperStr (s : String) :
    codeToWavePatternU toUpperStr s = codeToWavePattern s := rfl

/-- The Unicode uppercase mapping of the characters appearing in the
C10 counterexample and witness: ASCII as usual, sharp s to SS, long s
to S (both per the Unicode uppercase mapping the builtin implements). -/
def jsUpperChar (c : Char) : List Char :=
  if c = 'ß' then ['S', 'S']
  else if c = 'ſ' then ['S']
  else if 'a' ≤ c ∧ c ≤ 'z' then [Char.ofNat (c.toNat - 32)]
  else [c]

def jsToUpper (s : String) : String :=
  ⟨(s.data.map jsUpperChar).flatten⟩

theorem charToVal_eq_zero_of_not_alnum {c : Char}
    (hbad : isUpperAlnum c = false) : charToVal c = 0 := by
  have hbad' := of_decide_eq_false hbad
  push_neg at hbad'
  unfold charToVal
  rw [if_neg, if_neg]
  · rintro ⟨ha, hb⟩
    exact absurd hb (not_le.mpr (hbad'.2 ha))
  · rintro ⟨ha, hb⟩
    exact absurd hb (not_le.mpr (hbad'.1 ha))

/-- C10 counterexample: toUpperCase maps the 1-character string holding
a sharp s to the 2-character SS, so the program's pattern for it has 8
bars, not 4 times the input length; and the long s uppercases to S,
receiving ordinal 18, not 0, although it is itself outside A-Z and 0-9. -/
theorem c10_counterexample :
    ("ß" : String).length = 1 ∧
    (codeToWavePatternU jsToUpper "ß").length = 8 ∧
    (codeToWavePatternU jsToUpper "ß").length ≠ 4 * ("ß" : String).length ∧
    codeToNumericValuesU jsToUpper "ſ" = [18] := by
  refine ⟨rfl, ?_, ?_, ?_⟩ <;> decide

/-- C10 (amended): codeToNumericValues and codeToWavePattern are total
over arbitrary strings and never raise an error, for every behaviour of
the uppercase builtin: each character of the uppercased string outside
A-Z and 0-9 is mapped to ordinal 0 (indistinguishable from the letter
A), and the output length is 4 times the length of the uppercased
string — which equals the input length for ASCII input but not in
general, since toUpperCase can expand characters. -/
theorem c10_total_upper_param (upper : String → String) (s : String) :
    codeToNumericValuesU upper s = (upper s).data.map charToVal ∧
    (codeToNumericValuesU upper s).length = (upper s).length ∧
    (codeToWavePatternU upper s).length = 4 * (upper s).length ∧
    (codeToWavePatternU toUpperStr s).length = 4 * (toUpperStr s).length ∧
    ∀ c ∈ (upper s).data, isUpperAlnum c = false →
      charToVal c = 0 ∧ charToVal c = charToVal 'A' := by
  have hlen : ∀ u : String → String, (codeToWavePatternU u s).length =
      4 * (u s).length := by
    intro u
    show ((codeToNumericValuesU u s).foldl _ []).length = _
    rw [wavePattern_foldl_eq, List.nil_append, List.length_flatten,
      sum_length_barGroups]
    show 4 * ((u s).data.map charToVal).length = _
    rw [List.length_map]
    rfl
  refine ⟨rfl, ?_, hlen upper, hlen toUpperStr, ?_⟩
  · show ((upper s).data.map charToVal).length = (upper s).length
    rw [List.length_map]
    rfl
  intro c _ hbad
  have h0 := charToVal_eq_zero_of_not_alnum hbad
  exact ⟨h0, by rw [h0]; rfl⟩

/-- C10 witness at the concrete input holding a lowercase letter, a
sharp s and an exclamation mark, with the builtin modelled by jsToUpper. -/
theorem c10_total_upper_param_witness :
    ('!' ∈ (jsToUpper "aß!").data) ∧ isUpperAlnum '!' = false ∧
    (charToVal '!' = 0 ∧ charToVal '!' = charToVal 'A') ∧
    (codeToWavePatternU jsToUpper "aß!").length = 4 * (jsToUpper "aß!").length :=
  ⟨by decide, by decide,
    (c10_total_upper_param jsToUpper "aß!").2.2.2.2 '!' (by decide) (by decide),
    (c10_total_upper_param jsToUpper "aß!").2.2.1⟩

/-- C7 counterexample: the third and fourth bars also exceed 1 before
clamping at the maximal ordinal 35, so bar 2 is not the only transform
that can exceed 1 pre-clamp. -/
theorem c7_counterexample :
    (1 : ℚ) < preBar3 ((35 : ℚ) / 35) ∧ (1 : ℚ) < preBar4 ((35 : ℚ) / 35) := by
  constructor
  · unfold preBar3
    norm_num
  · unfold preBar4
    norm_num

/-- C7 (amended): bars 2, 3 and 4 can all exceed 1 before clamping (with
pre-clamp maxima 1.2, 1.1 and 1.05 respectively, reached at ordinal 35);
bar 1 never exceeds 1; the maximum achievable pre-clamp value over all
bars and valid ordinals is 1.2. -/
theorem c7_preclamp_bounds (v : ℕ) (h : v ≤ 35) :
    preBar1 ((v : ℚ) / 35) ≤ 1 ∧
    preBar2 ((v : ℚ) / 35) ≤ 1.2 ∧
    preBar3 ((v : ℚ) / 35) ≤ 1.1 ∧
    preBar4 ((v : ℚ) / 35) ≤ 1.05 ∧
    preBar2 ((35 : ℚ) / 35) = 1.2 ∧
    preBar3 ((35 : ℚ) / 35) = 1.1 ∧
    preBar4 ((35 : ℚ) / 35) = 1.05 ∧
    1 < preBar2 ((35 : ℚ) / 35) ∧
    1 < preBar3 ((35 : ℚ) / 35) ∧
    1 < preBar4 ((35 : ℚ) / 35) := by
  have h1 := div35_le_one h
  have h0 : (0 : ℚ) ≤ (v : ℚ) / 35 := by positivity
  refine ⟨preBar1_le_one h, ?_, ?_, ?_, ?_, ?_, ?_, ?_, ?_, ?_⟩ <;>
    simp only [preBar1, preBar2, preBar3, preBar4] <;> nlinarith

/-- C7 witness at the maximal ordinal 35. -/
theorem c7_preclamp_bounds_witness :
    (35 : ℕ) ≤ 35 ∧ preBar2 ((35 : ℚ) / 35) = 1.2 :=
  ⟨by decide, (c7_preclamp_bounds 35 (by decide)).2.2.2.2.1⟩

/-! ### Batch rendering (claim C3)

generateWaveCodes / generateThemedWaveCodes slice the input into batches
of 50 and render each batch with Promise.all.  Promise.all settles with
the first rejection, so the sequential model aborts a batch at its first
failing item; the per-item renderer is a parameter. -/

def isOkE {ε β : Type} : Except ε β → Bool
  | .ok _ => true
  | .error _ => false

/-- Promise.all over one batch: the first rejection rejects the batch. -/
def allRender {ε β : Type} (render : String → Except ε β) :
    List String → Except ε (List (String × β))
  | [] => .ok []
  | c :: cs =>
    match render c with
    | .error e => .error e
    | .ok b =>
      match allRender render cs with
      | .error e => .error e
      | .ok rs => .ok ((c, b) :: rs)

/-- The batch loop: take a slice of 50 codes, await Promise.all on it,
collect the results, continue with the rest.  A rejection anywhere makes
the whole call reject. -/
def batchRender {ε β : Type} (render : String → Except ε β) :
    List String → List (String × β) → Except ε (List (String × β))
  | [], acc => .ok acc
  | c :: cs, acc =>
    match allRender render ((c :: cs).take 50) with
    | .error e => .error e
    | .ok rs => batchRender render ((c :: cs).drop 50) (acc ++ rs)
termination_by l _ => l.length
decreasing_by simp [List.length_drop]; omega

/-- generateWaveCodes: batch-render a list of codes. -/
def generateWaveCodes {ε β : Type} (render : String → Except ε β)
    (codes : List String) : Except ε (List (String × β)) :=
  batchRender render codes []

/-- generateThemedWaveCodes: identical batch loop, rendering each code
with the one shared theme configuration. -/
def generateThemedWaveCodes {ε β θ : Type} (render : String → θ → Except ε β)
    (codes : List String) (themeConfig : θ) : Except ε (List (String × β)) :=
  batchRender (fun c => render c themeConfig) codes []

theorem allRender_ok {ε β : Type} (render : String → Except ε β) (f : String → β) :
    ∀ l : List String, (∀ c ∈ l, render c = .ok (f c)) →
      allRender render l = .ok (l.map fun c => (c, f c)) := by
  intro l
  induction l with
  | nil => intro _; rfl
  | cons c cs ih =>
    intro h
    have hc := h c (List.mem_cons_self c cs)
    have hcs := ih fun x hx => h x (List.mem_cons_of_mem _ hx)
    simp [allRender, hc, hcs]

theorem allRender_ok_forall {ε β : Type} {render : String → Except ε β}
    {l : List String} {rs : List (String × β)}
    (h : allRender render l = .ok rs) : ∀ c ∈ l, isOkE (render c) = true := by
  induction l generalizing rs with
  | nil => intro c hc; cases hc
  | cons c cs ih =>
    intro x hx
    rw [allRender] at h
    cases hr : render c with
    | error e => rw [hr] at h; cases h
    | ok b =>
      rw [hr] at h
      cases hrest : allRender render cs with
      | error e => rw [hrest] at h; cases h
      | ok rs2 =>
        rcases List.mem_cons.mp hx with rfl | hx2
        · rw [hr]; rfl
        · exact ih hrest x hx2

theorem allRender_error {ε β : Type} (render : String → Except ε β) :
    ∀ l : List String, (∃ c ∈ l, isOkE (render c) = false) →
      ∃ e, allRender render l = .error e := by
  intro l
  induction l with
  | nil => rintro ⟨c, hc, -⟩; cases hc
  | cons c cs ih =>
    rintro ⟨x, hx, hbad⟩
    rw [allRender]
    cases hr : render c with
    | error e => exact ⟨e, rfl⟩
    | ok b =>
      rcases List.mem_cons.mp hx with rfl | hx2
      · rw [hr] at hbad; cases hbad
      · obtain ⟨e, he⟩ := ih ⟨x, hx2, hbad⟩
        rw [he]
        exact ⟨e, rfl⟩

theorem batchRender_ok {ε β : Type} (render : String → Except ε β) (f : String → β) :
    ∀ (n : ℕ) (l : List String) (acc : List (String × β)), l.length ≤ n →
      (∀ c ∈ l, render c = .ok (f c)) →
      batchRender render l acc = .ok (acc ++ l.map fun c => (c, f c)) := by
  intro n
  induction n with
  | zero =>
    intro l acc hlen _
    cases l with
    | nil => simp [batchRender]
    | cons c cs => simp at hlen
  | succ n ih =>
    intro l acc hlen hok
    cases l with
    | nil => simp [batchRender]
    | cons c cs =>
      have htake : ∀ x ∈ (c :: cs).take 50, render x = .ok (f x) :=
        fun x hx => hok x (List.take_subset _ _ hx)
      have hdrop : ∀ x ∈ (c :: cs).drop 50, render x = .ok (f x) :=
        fun x hx => hok x (List.drop_subset _ _ hx)
      have hlen' : ((c :: cs).drop 50).length ≤ n := by
        rw [List.length_drop]
        simp only [List.length_cons] at hlen ⊢
        omega
      rw [batchRender.eq_2, allRender_ok render f _ htake]
      dsimp only
      rw [ih _ _ hlen' hdrop, List.append_assoc, ← List.map_append,
        List.take_append_drop]

theorem batchRender_error {ε β : Type} (render : String → Except ε β) :
    ∀ (n : ℕ) (l : List String) (acc : List (String × β)), l.length ≤ n →
      (∃ c ∈ l, isOkE (render c) = false) →
      ∃ e, batchRender render l acc = .error e := by
  intro n
  induction n with
  | zero =>
    intro l acc hlen hbad
    cases l with
    | nil => rcases hbad with ⟨c, hc, -⟩; cases hc
    | cons c cs => simp at hlen
  | succ n ih =>
    intro l acc hlen hbad
    cases l with
    | nil => rcases hbad with ⟨c, hc, -⟩; cases hc
    | cons c cs =>
      cases hall : allRender render ((c :: cs).take 50) with
      | error e =>
        refine ⟨e, ?_⟩
        rw [batchRender.eq_2, hall]
      | ok rs =>
        have hok50 := allRender_ok_forall hall
        rcases hbad with ⟨x, hx, hbadx⟩
        have hxdrop : x ∈ (c :: cs).drop 50 := by
          rcases List.mem_append.mp (by rw [List.take_append_drop]; exact hx :
              x ∈ (c :: cs).take 50 ++ (c :: cs).drop 50) with h50 | hd
          · rw [hok50 x h50] at hbadx; cases hbadx
          · exact hd
        have hlen' : ((c :: cs).drop 50).length ≤ n := by
          rw [List.length_drop]
          simp only [List.length_cons] at hlen ⊢
          omega
        obtain ⟨e, he⟩ := ih ((c :: cs).drop 50) (acc ++ rs) hlen' ⟨x, hxdrop, hbadx⟩
        refine ⟨e, ?_⟩
        rw [batchRender.eq_2, hall]
        exact he

/-- C3 counterexample: a batch of two codes where rendering the second
fails.  The first code renders fine on its own, yet the whole batch call
returns the error: no per-item results are produced, so the failure of
one item does abort the batch. -/
theorem c3_counterexample :
    (fun c => if c = "BBBBBB" then (Except.error "boom" : Except String Unit)
      else .ok ()) "AAAAAA" = .ok () ∧
    generateWaveCodes
      (fun c => if c = "BBBBBB" then (Except.error "boom" : Except String Unit)
        else .ok ())
      ["AAAAAA", "BBBBBB"] = .error "boom" ∧
    generateThemedWaveCodes
      (fun c (_ : Unit) =>
        if c = "BBBBBB" then (Except.error "boom" : Except String Unit)
        else .ok ())
      ["AAAAAA", "BBBBBB"] () = .error "boom" := by
  refine ⟨by simp, ?_, ?_⟩
  · simp [generateWaveCodes, batchRender, allRender]
  · simp [generateThemedWaveCodes, batchRender, allRender]

/-- C3 (amended): in generateWaveCodes and generateThemedWaveCodes, a
failure while rendering any item rejects the whole batch call with an
error (Promise.all semantics) and no per-item results are returned; only
when every item succeeds does the call return, with all results. -/
theorem c3_batch_abort_on_failure {ε β θ : Type} (render : String → Except ε β)
    (renderT : String → θ → Except ε β) (themeConfig : θ)
    (codes : List String) (f : String → β) :
    ((∀ c ∈ codes, render c = .ok (f c)) →
      generateWaveCodes render codes = .ok (codes.map fun c => (c, f c))) ∧
    ((∃ c ∈ codes, isOkE (render c) = false) →
      ∃ e, generateWaveCodes render codes = .error e) ∧
    ((∀ c ∈ codes, renderT c themeConfig = .ok (f c)) →
      generateThemedWaveCodes renderT codes themeConfig =
        .ok (codes.map fun c => (c, f c))) ∧
    ((∃ c ∈ codes, isOkE (renderT c themeConfig) = false) →
      ∃ e, generateThemedWaveCodes renderT codes themeConfig = .error e) := by
  refine ⟨?_, ?_, ?_, ?_⟩
  · intro h
    have := batchRender_ok render f codes.length codes [] le_rfl h
    simpa [generateWaveCodes] using this
  · intro h
    obtain ⟨e, he⟩ := batchRender_error render codes.length codes [] le_rfl h
    exact ⟨e, he⟩
  · intro h
    have := batchRender_ok (fun c => renderT c themeConfig) f codes.length codes []
      le_rfl h
    simpa [generateThemedWaveCodes] using this
  · intro h
    obtain ⟨e, he⟩ := batchRender_error (fun c => renderT c themeConfig)
      codes.length codes [] le_rfl h
    exact ⟨e, he⟩

/-- C3 witness: the amended theorem applied at a concrete all-success
batch and at a concrete batch with one failing item. -/
theorem c3_batch_abort_on_failure_witness :
    (generateWaveCodes (fun _ => (Except.ok () : Except String Unit))
      ["AAAAAA", "BBBBBB"] = .ok [("AAAAAA", ()), ("BBBBBB", ())]) ∧
    (∃ e, generateWaveCodes
      (fun c => if c = "BBBBBB" then (Except.error "oops" : Except String Unit)
        else .ok ())
      ["AAAAAA", "BBBBBB"] = .error e) :=
  ⟨(c3_batch_abort_on_failure (fun _ => (Except.ok () : Except String Unit))
      (fun _ _ => Except.ok ()) () ["AAAAAA", "BBBBBB"] (fun _ => ())).1
      (fun _ _ => rfl),
   (c3_batch_abort_on_failure
      (fun c => if c = "BBBBBB" then (Except.error "oops" : Except String Unit)
        else .ok ())
      (fun _ _ => Except.ok ()) () ["AAAAAA", "BBBBBB"] (fun _ => ())).2.1
      ⟨"BBBBBB", by simp, by simp [isOkE]⟩⟩

/-! ### Theme configuration (claims C4, C5, C6)

Embedding of the theme module: ColorScheme / BarStyle / Effects /
Dimensions records, the DEFAULT_THEME constant, the per-section spread
merge, and validateTheme.  Optional TypeScript fields become Option;
a JavaScript object spread per section is modelled by per-field
fallback to the default section. -/

inductive ColorType : Type
  | solid
  | gradient
  | dualTone
deriving DecidableEq

inductive BarShape : Type
  | rectangle
  | rounded
  | circular
  | triangle
deriving DecidableEq

structure ColorScheme : Type where
  type : ColorType
  primary : String
  secondary : Option String := none
  background : String
  gradientAngle : Option ℚ := none
deriving DecidableEq

structure BarStyle : Type where
  shape : BarShape
  thickness : ℚ
  spacing : ℚ
  roundness : Option ℚ := none
deriving DecidableEq

structure Effects : Type where
  shadow : Bool
  shadowColor : Option String := none
  shadowBlur : Option ℚ := none
  opacity : ℚ
deriving DecidableEq

structure Dimensions : Type where
  width : ℚ
  height : ℚ
  dpi : ℚ
deriving DecidableEq

structure ThemeConfig : Type where
  colorScheme : ColorScheme
  barStyle : BarStyle
  effects : Effects
  dimensions : Dimensions
deriving DecidableEq

def DEFAULT_THEME : ThemeConfig :=
  { colorScheme := { type := .solid, primary := "#000000", background := "#FFFFFF" }
    barStyle := { shape := .rectangle, thickness := 5, spacing := 3 }
    effects := { shadow := false, opacity := 100 }
    dimensions := { width := 15, height := 5, dpi := 300 } }

/-- A TypeScript object literal for a (possibly incomplete) ColorScheme
section: present keys are some. -/
structure PartialColorScheme : Type where
  type : Option ColorType := none
  primary : Option String := none
  secondary : Option String := none
  background : Option String := none
  gradientAngle : Option ℚ := none

structure PartialBarStyle : Type where
  shape : Option BarShape := none
  thickness : Option ℚ := none
  spacing : Option ℚ := none
  roundness : Option ℚ := none

structure PartialEffects : Type where
  shadow : Option Bool := none
  shadowColor : Option String := none
  shadowBlur : Option ℚ := none
  opacity : Option ℚ := none

structure PartialDimensions : Type where
  width : Option ℚ := none
  height : Option ℚ := none
  dpi : Option ℚ := none

/-- Partial ThemeConfig: each top-level section may be absent. -/
structure PartialThemeConfig : Type where
  colorScheme : Option PartialColorScheme := none
  barStyle : Option PartialBarStyle := none
  effects : Option PartialEffects := none
  dimensions : Option PartialDimensions := none

/-- Spread of a partial section over the default ColorScheme section. -/
def spreadColorScheme (d : ColorScheme) (p : PartialColorScheme) : ColorScheme :=
  { type := p.type.getD d.type
    primary := p.primary.getD d.primary
    secondary := match p.secondary with | some v => some v | none => d.secondary
    background := p.background.getD d.background
    gradientAngle := match p.gradientAngle with | some v => some v | none => d.gradientAngle }

def spreadBarStyle (d : BarStyle) (p : PartialBarStyle) : BarStyle :=
  { shape := p.shape.getD d.shape
    thickness := p.thickness.getD d.thickness
    spacing := p.spacing.getD d.spacing
    roundness := match p.roundness with | some v => some v | none => d.roundness }

def spreadEffects (d : Effects) (p : PartialEffects) : Effects :=
  { shadow := p.shadow.getD d.shadow
    shadowColor := match p.shadowColor with | some v => some v | none => d.shadowColor
    shadowBlur := match p.shadowBlur with | some v => some v | none => d.shadowBlur
    opacity := p.opacity.getD d.opacity }

def spreadDimensions (d : Dimensions) (p : PartialDimensions) : Dimensions :=
  { width := p.width.getD d.width
    height := p.height.getD d.height
    dpi := p.dpi.getD d.dpi }

/-- mergeWithDefault: null yields the default theme; otherwise each
section is spread over the corresponding default section (an absent
section spreads nothing, keeping the default section). -/
def mergeWithDefault (p : Option PartialThemeConfig) : ThemeConfig :=
  match p with
  | none => DEFAULT_THEME
  | some p =>
    { colorScheme := spreadColorScheme DEFAULT_THEME.colorScheme (p.colorScheme.getD {})
      barStyle := spreadBarStyle DEFAULT_THEME.barStyle (p.barStyle.getD {})
      effects := spreadEffects DEFAULT_THEME.effects (p.effects.getD {})
      dimensions := spreadDimensions DEFAULT_THEME.dimensions (p.dimensions.getD {}) }

/-- C4: mergeWithDefault(null) is exactly the default theme, and merging
a partial that sets only colorScheme.primary keeps every barStyle,
effects and dimensions field and every other colorScheme field at its
default, changing only primary. -/
theorem c4_mergeWithDefault_sections :
    mergeWithDefault none = DEFAULT_THEME ∧
    ∀ p : String,
      mergeWithDefault (some { colorScheme := some { primary := some p } }) =
        { DEFAULT_THEME with
            colorScheme := { DEFAULT_THEME.colorScheme with primary := p } } := by
  constructor
  · rfl
  · intro p
    rfl

/-! ### Contrast ratio and theme validation (claim C5)

Math.pow(x, 2.4) is irrational-valued, so the sRGB gamma branch is a
parameter pow24 of the model; every statement below holds for an
arbitrary gamma function, hence in particular for the real one. -/

def hexDigitVal (c : Char) : Option ℕ :=
  if '0' ≤ c ∧ c ≤ '9' then some (c.toNat - 48)
  else if 'a' ≤ c ∧ c ≤ 'f' then some (c.toNat - 97 + 10)
  else if 'A' ≤ c ∧ c ≤ 'F' then some (c.toNat - 65 + 10)
  else none

def hexPair (c1 c2 : Char) : Option ℕ :=
  match hexDigitVal c1, hexDigitVal c2 with
  | some h, some l => some (16 * h + l)
  | _, _ => none

/-- Drop the optional leading hash of the hex-colour regex. -/
def stripHash (l : List Char) : List Char :=
  match l with
  | '#' :: rest => rest
  | l => l

/-- hexToRgb: parse an optionally hash-prefixed 6-digit hex colour,
case-insensitively; anything else yields none. -/
def hexToRgb (hex : String) : Option (ℕ × ℕ × ℕ) :=
  match stripHash hex.data with
  | [a, b, c, d, e, f] =>
    match hexPair a b, hexPair c d, hexPair e f with
    | some r, some g, some bl => some (r, g, bl)
    | _, _, _ => none
  | _ => none

/-- sRGB linearisation of one channel (v / 255, linear branch below the
0.03928 knee, gamma branch above it). -/
def srgbLin (pow24 : ℚ → ℚ) (v : ℕ) : ℚ :=
  let q : ℚ := (v : ℚ) / 255
  if q ≤ 0.03928 then q / 12.92 else pow24 ((q + 0.055) / 1.055)

/-- getLuminance: 0 for an unparseable colour, else the WCAG weighted
sum of the linearised channels. -/
def getLuminance (pow24 : ℚ → ℚ) (hex : String) : ℚ :=
  match hexToRgb hex with
  | none => 0
  | some (r, g, b) =>
    0.2126 * srgbLin pow24 r + 0.7152 * srgbLin pow24 g + 0.0722 * srgbLin pow24 b

def getContrastRatio (pow24 : ℚ → ℚ) (color1 color2 : String) : ℚ :=
  let l1 := getLuminance pow24 color1
  let l2 := getLuminance pow24 color2
  (max l1 l2 + 0.05) / (min l1 l2 + 0.05)

inductive WarningType : Type
  | contrast
  | thickness
  | opacity
  | size
  | dpi
deriving DecidableEq

inductive Severity : Type
  | warning
  | error
deriving DecidableEq

structure ThemeValidationWarning : Type where
  type : WarningType
  message : String
  severity : Severity
deriving DecidableEq

/-- toFixed(2) for the nonnegative contrast ratio. -/
def ratToFixed2 (q : ℚ) : String :=
  let m : ℕ := (⌊q * 100 + 1 / 2⌋).toNat
  toString (m / 100) ++ "." ++ (if m % 100 < 10 then "0" else "") ++ toString (m % 100)

/-- validateTheme: the five independent checks, in source order, each
contributing its warning when its threshold is violated. -/
def validateTheme (pow24 : ℚ → ℚ) (theme : ThemeConfig) :
    List ThemeValidationWarning :=
  let contrast := getContrastRatio pow24 theme.colorScheme.primary
    theme.colorScheme.background
  (if contrast < 4.5 then
    [{ type := .contrast
       message := "Low contrast ratio (" ++ ratToFixed2 contrast ++
         ":1). Recommended minimum is 4.5:1 for readability."
       severity := if contrast < 3 then .error else .warning }]
   else []) ++
  (if theme.barStyle.thickness < 2 then
    [{ type := .thickness
       message := "Bar thickness is very thin. This may affect scanning reliability."
       severity := .warning }]
   else []) ++
  (if theme.effects.opacity < 70 then
    [{ type := .opacity
       message := "Low opacity may affect print and scan quality."
       severity := .warning }]
   else []) ++
  (if theme.dimensions.width < 5 then
    [{ type := .size
       message := "Width is very small. Minimum recommended is 5mm."
       severity := .warning }]
   else []) ++
  (if theme.dimensions.dpi < 300 then
    [{ type := .dpi
       message := "DPI is too low for print quality. Minimum recommended is 300 DPI."
       severity := .error }]
   else [])

/-- C5: validateTheme returns exactly the warnings whose thresholds are
violated, all together without short-circuiting: a contrast warning iff
the ratio is below 4.5 (severity error iff below 3, warning otherwise),
a thickness warning iff thickness is below 2, an opacity warning iff
opacity is below 70, a size warning iff width is below 5, and a dpi
warning of severity error iff dpi is below 300; the number of warnings
is the number of violated thresholds. -/
theorem c5_validateTheme_exact (pow24 : ℚ → ℚ) (theme : ThemeConfig) :
    ((∃ w ∈ validateTheme pow24 theme, w.type = .contrast) ↔
      getContrastRatio pow24 theme.colorScheme.primary
        theme.colorScheme.background < 4.5) ∧
    (∀ w ∈ validateTheme pow24 theme, w.type = .contrast →
      w.severity = if getContrastRatio pow24 theme.colorScheme.primary
        theme.colorScheme.background < 3 then .error else .warning) ∧
    ((∃ w ∈ validateTheme pow24 theme, w.type = .thickness) ↔
      theme.barStyle.thickness < 2) ∧
    (∀ w ∈ validateTheme pow24 theme, w.type = .thickness →
      w.severity = .warning) ∧
    ((∃ w ∈ validateTheme pow24 theme, w.type = .opacity) ↔
      theme.effects.opacity < 70) ∧
    (∀ w ∈ validateTheme pow24 theme, w.type = .opacity →
      w.severity = .warning) ∧
    ((∃ w ∈ validateTheme pow24 theme, w.type = .size) ↔
      theme.dimensions.width < 5) ∧
    (∀ w ∈ validateTheme pow24 theme, w.type = .size →
      w.severity = .warning) ∧
    ((∃ w ∈ validateTheme pow24 theme, w.type = .dpi) ↔
      theme.dimensions.dpi < 300) ∧
    (∀ w ∈ validateTheme pow24 theme, w.type = .dpi →
      w.severity = .error) ∧
    (validateTheme pow24 theme).length =
      (if getContrastRatio pow24 theme.colorScheme.primary
        theme.colorScheme.background < 4.5 then 1 else 0) +
      (if theme.barStyle.thickness < 2 then 1 else 0) +
      (if theme.effects.opacity < 70 then 1 else 0) +
      (if theme.dimensions.width < 5 then 1 else 0) +
      (if theme.dimensions.dpi < 300 then 1 else 0) := by
  by_cases h1 : getContrastRatio pow24 theme.colorScheme.primary
      theme.colorScheme.background < 4.5 <;>
    by_cases h2 : theme.barStyle.thickness < 2 <;>
    by_cases h3 : theme.effects.opacity < 70 <;>
    by_cases h4 : theme.dimensions.width < 5 <;>
    by_cases h5 : theme.dimensions.dpi < 300 <;>
    simp [validateTheme, h1, h2, h3, h4, h5]

/-! ### Themed bar geometry (claim C6) -/

/-- JavaScript Math.round: floor(x + 0.5). -/
def jsRound (q : ℚ) : ℤ := ⌊q + 1 / 2⌋

/-- mmToPixels: Math.round((mm / 25.4) * dpi). -/
def mmToPixels (mm dpi : ℚ) : ℤ := jsRound (mm / 25.4 * dpi)

/-- The pre-rounding bar width 4 * (thickness / 5) * (dpi / 300). -/
def preBarWidthPx (thickness dpi : ℚ) : ℚ := 4 * (thickness / 5) * (dpi / 300)

/-- The pre-rounding bar gap 2 * (spacing / 3) * (dpi / 300). -/
def preBarGapPx (spacing dpi : ℚ) : ℚ := 2 * (spacing / 3) * (dpi / 300)

/-- baseBarWidth: Math.max(2, Math.round(4 * (thickness/5) * (dpi/300))). -/
def baseBarWidth (thickness dpi : ℚ) : ℤ :=
  max 2 (jsRound (4 * (thickness / 5) * (dpi / 300)))

/-- baseBarGap: Math.max(1, Math.round(2 * (spacing/3) * (dpi/300))). -/
def baseBarGap (spacing dpi : ℚ) : ℤ :=
  max 1 (jsRound (2 * (spacing / 3) * (dpi / 300)))

/-- C6 counterexample: at the default dpi 300, doubling thickness from 3
to 6 takes the pixel bar width from 2 to 5, not to 4; and doubling dpi
from 300 to 600 at thickness 3 also yields 5, not 4.  Rounding and the
2px floor break exact linear scaling. -/
theorem c6_counterexample :
    baseBarWidth 3 300 = 2 ∧ baseBarWidth 6 300 = 5 ∧
    baseBarWidth 6 300 ≠ 2 * baseBarWidth 3 300 ∧
    baseBarWidth 3 600 = 5 ∧ baseBarWidth 3 600 ≠ 2 * baseBarWidth 3 300 := by
  have h1 : baseBarWidth 3 300 = 2 := by
    unfold baseBarWidth jsRound
    norm_num
  have h2 : baseBarWidth 6 300 = 5 := by
    unfold baseBarWidth jsRound
    norm_num
  have h3 : baseBarWidth 3 600 = 5 := by
    unfold baseBarWidth jsRound
    norm_num
  refine ⟨h1, h2, ?_, h3, ?_⟩
  · rw [h1, h2]; decide
  · rw [h1, h3]; decide

/-- C6 (amended): the pre-rounding pixel bar width and gap scale exactly
linearly with thickness/spacing and with dpi (doubling either doubles
them); the rendered pixel values are these quantities after Math.round
and the floors of 2px and 1px, so the linear scaling holds only up to
rounding and flooring. -/
theorem c6_scaling_linear_preround (thickness spacing dpi : ℚ) :
    preBarWidthPx (2 * thickness) dpi = 2 * preBarWidthPx thickness dpi ∧
    preBarWidthPx thickness (2 * dpi) = 2 * preBarWidthPx thickness dpi ∧
    preBarGapPx (2 * spacing) dpi = 2 * preBarGapPx spacing dpi ∧
    preBarGapPx spacing (2 * dpi) = 2 * preBarGapPx spacing dpi ∧
    baseBarWidth thickness dpi = max 2 (jsRound (preBarWidthPx thickness dpi)) ∧
    baseBarGap spacing dpi = max 1 (jsRound (preBarGapPx spacing dpi)) := by
  refine ⟨?_, ?_, ?_, ?_, rfl, rfl⟩ <;>
    simp only [preBarWidthPx, preBarGapPx] <;> ring

/-! ### Unique code generation (claim C8)

generateUniqueCodes draws from the nanoid generator in a loop, inserting
into a Set until it holds count distinct codes.  The random source is
modelled as a stream gen of draws; the JS Set keeps first insertion
order, so it is modelled by a duplicate-discarding list insert; fuel
bounds the number of draws inspected. -/

/-- Set.add: appends the code unless it is already present. -/
def insertCode (codes : List String) (c : String) : List String :=
  if c ∈ codes then codes else codes ++ [c]

/-- The while loop: stop once the set reaches count members, else draw
the next code from the stream; none when the fuel runs out first. -/
def generateUniqueCodesGo (gen : ℕ → String) (count : ℕ) :
    ℕ → ℕ → List String → Option (List String)
  | 0, _, codes => if count ≤ codes.length then some codes else none
  | fuel + 1, i, codes =>
    if count ≤ codes.length then some codes
    else generateUniqueCodesGo gen count fuel (i + 1) (insertCode codes (gen i))

def generateUniqueCodes (gen : ℕ → String) (count fuel : ℕ) :
    Option (List String) :=
  generateUniqueCodesGo gen count fuel 0 []

theorem mem_insertCode {codes : List String} {c s : String} :
    s ∈ insertCode codes c ↔ s ∈ codes ∨ s = c := by
  unfold insertCode
  split
  · rename_i hmem
    constructor
    · exact Or.inl
    · rintro (h | rfl)
      · exact h
      · exact hmem
  · simp [List.mem_append]

theorem insertCode_nodup {codes : List String} {c : String} (h : codes.Nodup) :
    (insertCode codes c).Nodup := by
  unfold insertCode
  split
  · exact h
  · rename_i hnin
    rw [List.nodup_append]
    exact ⟨h, List.nodup_singleton c, by simpa using hnin⟩

theorem insertCode_length {codes : List String} {c : String} :
    (insertCode codes c).length ≤ codes.length + 1 := by
  unfold insertCode
  split
  · omega
  · simp

theorem mem_range_map_gen {gen : ℕ → String} {m : ℕ} {s : String} :
    s ∈ (List.range m).map gen ↔ ∃ j, j < m ∧ gen j = s := by
  simp only [List.mem_map, List.mem_range]

theorem generateUniqueCodesGo_spec (gen : ℕ → String) (count : ℕ) :
    ∀ (fuel i : ℕ) (codes : List String),
      codes.Nodup → codes.length ≤ count →
      (∀ s, s ∈ codes ↔ ∃ j, j < i ∧ gen j = s) →
      count ≤ (((List.range (i + fuel)).map gen).dedup).length →
      ∃ l, generateUniqueCodesGo gen count fuel i codes = some l ∧
        l.Nodup ∧ l.length = count ∧ ∀ s ∈ l, ∃ j, gen j = s := by
  intro fuel
  induction fuel with
  | zero =>
    intro i codes hnd hle hmem hcount
    have hperm : codes.Perm (((List.range i).map gen).dedup) := by
      apply (List.perm_ext_iff_of_nodup hnd (List.nodup_dedup _)).mpr
      intro a
      rw [List.mem_dedup, mem_range_map_gen, hmem a]
    have hlen : codes.length = (((List.range i).map gen).dedup).length :=
      hperm.length_eq
    rw [Nat.add_zero] at hcount
    have hge : count ≤ codes.length := by omega
    refine ⟨codes, ?_, hnd, by omega, ?_⟩
    · unfold generateUniqueCodesGo
      rw [if_pos hge]
    · intro s hs
      obtain ⟨j, -, hj⟩ := (hmem s).mp hs
      exact ⟨j, hj⟩
  | succ fuel ih =>
    intro i codes hnd hle hmem hcount
    by_cases hge : count ≤ codes.length
    · refine ⟨codes, ?_, hnd, by omega, ?_⟩
      · unfold generateUniqueCodesGo
        rw [if_pos hge]
      · intro s hs
        obtain ⟨j, -, hj⟩ := (hmem s).mp hs
        exact ⟨j, hj⟩
    · push_neg at hge
      have hstep : generateUniqueCodesGo gen count (fuel + 1) i codes =
          if count ≤ codes.length then some codes
          else generateUniqueCodesGo gen count fuel (i + 1)
            (insertCode codes (gen i)) := rfl
      rw [hstep, if_neg (by omega)]
      apply ih (i + 1) (insertCode codes (gen i)) (insertCode_nodup hnd)
      · have := @insertCode_length codes (gen i)
        omega
      · intro s
        rw [mem_insertCode, hmem s]
        constructor
        · rintro (⟨j, hj, rfl⟩ | rfl)
          · exact ⟨j, by omega, rfl⟩
          · exact ⟨i, by omega, rfl⟩
        · rintro ⟨j, hj, rfl⟩
          by_cases hji : j = i
          · subst hji
            exact Or.inr rfl
          · exact Or.inl ⟨j, by omega, rfl⟩
      · have harith : i + 1 + fuel = i + (fuel + 1) := by omega
        rw [harith]
        exact hcount

/-- C8: for any stream of valid codes whose first n draws contain at
least count distinct values, the generation loop terminates within n
draws and returns exactly count pairwise-distinct valid codes; in-batch
duplicates are discarded, never returned. -/
theorem c8_generateUniqueCodes_spec (gen : ℕ → String) (count n : ℕ)
    (hvalid : ∀ i, isValidCodeFormat (gen i) = true)
    (hdistinct : count ≤ (((List.range n).map gen).dedup).length) :
    ∃ l, generateUniqueCodes gen count n = some l ∧
      l.Nodup ∧ l.length = count ∧ ∀ s ∈ l, isValidCodeFormat s = true := by
  obtain ⟨l, h1, h2, h3, h4⟩ := generateUniqueCodesGo_spec gen count n 0 []
    List.nodup_nil (Nat.zero_le count) (by simp) (by simpa using hdistinct)
  refine ⟨l, h1, h2, h3, ?_⟩
  intro s hs
  obtain ⟨j, rfl⟩ := h4 s hs
  exact hvalid j

/-- C8 witness: a concrete stream alternating two valid codes, asked for
2 unique codes within 2 draws. -/
theorem c8_generateUniqueCodes_spec_witness :
    (∀ i : ℕ, isValidCodeFormat
      ((fun i => if i = 0 then "AAAAAA" else "BBBBBB") i) = true) ∧
    (2 ≤ ((((List.range 2).map
      (fun i => if i = 0 then "AAAAAA" else "BBBBBB")).dedup).length)) ∧
    ∃ l, generateUniqueCodes
      (fun i => if i = 0 then "AAAAAA" else "BBBBBB") 2 2 = some l ∧
      l.Nodup ∧ l.length = 2 ∧ ∀ s ∈ l, isValidCodeFormat s = true :=
  ⟨fun i => by
      cases i with
      | zero => decide
      | succ m =>
        show isValidCodeFormat (if m + 1 = 0 then "AAAAAA" else "BBBBBB") = true
        rw [if_neg (Nat.succ_ne_zero m)]
        decide,
   by decide,
   c8_generateUniqueCodes_spec (fun i => if i = 0 then "AAAAAA" else "BBBBBB") 2 2
     (fun i => by
       cases i with
       | zero => decide
       | succ m =>
         show isValidCodeFormat (if m + 1 = 0 then "AAAAAA" else "BBBBBB") = true
         rw [if_neg (Nat.succ_ne_zero m)]
         decide)
     (by decide)⟩
